import Mathlib

/-!
Verification development for the `ext_args` single-header command-line
argument parser (`src/ext_args.h`).  All definitions below are shallow
embeddings of the C source: C strings (`char *`) become `List Char`
(the characters before the terminating NUL), the `setjmp`/`longjmp`
error channel becomes `Except`, the two unbounded parser loops get an
explicit fuel argument (`ext_args` supplies `fmt.length + 1`, which is
always sufficient since every loop iteration consumes at least one
schema character), and the writes the binder performs through the
caller's varargs pointers become an explicit ordered list of write
events.  Every output destination is modelled as present (the caller
passed a non-NULL pointer for each declaration slot); allocation is
modelled as always succeeding.
-/

namespace ExtArgs

/-- Characters of a C string (`char *`), without the terminating NUL. -/
abbrev Str := List Char

/-! ## Schema tokenizer: EXT_ARGS_Name, EXT_ARGS_ArgFloat, EXT_ARGS_Dots, EXT_ARGS_NextTok -/

/-- The first-character test of `EXT_ARGS_Name`: ASCII letter. -/
def isAlphaChar (c : Char) : Bool :=
  (decide ('a' ≤ c) && decide (c ≤ 'z')) || (decide ('A' ≤ c) && decide (c ≤ 'Z'))

/-- The continuation-character scan of `EXT_ARGS_Name`: letter, digit, `_` or `-`. -/
def isNameChar (c : Char) : Bool :=
  isAlphaChar c || (decide ('0' ≤ c) && decide (c ≤ '9')) || c == '_' || c == '-'

/-- `EXT_ARGS_Name`: number of characters of a schema NAME at the front of `s`,
or `none` when there is no name there (first char not a letter, or the
maximal scan ends in `-`). -/
def nameLen (s : Str) : Option Nat :=
  match s with
  | [] => none
  | c :: rest =>
    if isAlphaChar c then
      let k := 1 + (rest.takeWhile isNameChar).length
      if (s.take k).getLast? = some '-' then none else some k
    else none

/-- `EXT_ARGS_ArgFloat`: one or more leading `-` immediately followed by a name. -/
def argFloat (s : Str) : Option Nat :=
  let d := (s.takeWhile (fun c => c == '-')).length
  if d < 1 then none
  else
    match nameLen (s.drop d) with
    | some k => some (d + k)
    | none => none

/-- `EXT_ARGS_Dots`: the maximal run of `.` must have length exactly 3. -/
def dotsLen (s : Str) : Option Nat :=
  let d := (s.takeWhile (fun c => c == '.')).length
  if d = 3 then some 3 else none

/-- The whitespace set of `EXT_ARGS_SkipSpaces`. -/
def isSpaceChar (c : Char) : Bool :=
  c == ' ' || c == '\n' || c == '\t' || c == '\r'

/-- Schema token kinds (`EXT_ARGS_TOK_*`). -/
inductive TokType
  | eoi | lbrak | rbrak | pipe | eql | name | floatArg | dots
  deriving DecidableEq, Repr

/-- `EXT_ARGS_TokTypeToName`. -/
def tokTypeName : TokType → String
  | .eoi => "EOI"
  | .lbrak => "LBRAK"
  | .rbrak => "RBRAK"
  | .pipe => "PIPE"
  | .eql => "EQL"
  | .name => "NAME"
  | .floatArg => "FLOAT_ARG"
  | .dots => "DOTS"

/-- `EXT_ARGS_Tok`: the C code stores a pointer into the schema plus a length;
`text` holds exactly those `len` characters. -/
structure Tok where
  type : TokType
  text : Str
  deriving DecidableEq, Repr

/-- Schema-side errors (`EXT_ARGS_ERR_LEX` / `EXT_ARGS_ERR_PARSE` longjmps).
`fuel` is unreachable for the fuel `ext_args` supplies. -/
inductive SchemaErr
  | lex (rest : Str)
  | parse (expected found : TokType) (rest : Str)
  | fuel
  deriving DecidableEq, Repr

/-- `EXT_ARGS_NextTok`: skip whitespace, then single-char tokens, then
NAME, FLOAT_ARG, DOTS in the source's priority order; anything else is a
lexing error carrying the offending remainder. -/
def nextTok (s : Str) : Except Str (Tok × Str) :=
  let s2 := s.dropWhile isSpaceChar
  match s2 with
  | [] => .ok (⟨.eoi, []⟩, [])
  | c :: rest =>
    if c = '[' then .ok (⟨.lbrak, [c]⟩, rest)
    else if c = ']' then .ok (⟨.rbrak, [c]⟩, rest)
    else if c = '|' then .ok (⟨.pipe, [c]⟩, rest)
    else if c = '=' then .ok (⟨.eql, [c]⟩, rest)
    else
      match nameLen s2 with
      | some k => .ok (⟨.name, s2.take k⟩, s2.drop k)
      | none =>
        match argFloat s2 with
        | some k => .ok (⟨.floatArg, s2.take k⟩, s2.drop k)
        | none =>
          match dotsLen s2 with
          | some k => .ok (⟨.dots, s2.take k⟩, s2.drop k)
          | none => .error s2

/-! ## Schema parser state (EXT_ARGS_Parser and the structures it collects) -/

/-- `EXT_ARGS_PosArg` (the `varPtr` output pointer is modelled positionally). -/
structure PosArg where
  isOptional : Bool
  str : Str
  deriving DecidableEq, Repr

/-- `EXT_ARGS_FloatArg`: one alias spelling, pointing at its group. -/
structure FloatAlias where
  str : Str
  groupIdx : Nat
  deriving DecidableEq, Repr

/-- `EXT_ARGS_FloatArgsGroup` (the dynamic `ary` used for repeating groups
is part of the group; `varPtr` is modelled positionally). -/
structure Group where
  isOptional : Bool
  hasAssign : Bool
  isAssignOptional : Bool
  isRepeating : Bool
  aliasCount : Nat
  isUsed : Bool
  ary : List Str
  deriving DecidableEq, Repr

instance : Inhabited Group := ⟨⟨false, false, false, false, 0, false, []⟩⟩

/-- `EXT_ARGS_SequenceElement`: declaration order (positional vs group). -/
inductive SeqElem
  | pos (idx : Nat)
  | grp (idx : Nat)
  deriving DecidableEq, Repr

/-- `EXT_ARGS_Parser`: cursor, collected structure, and the
`parsingStates.isOptional` flag set while inside a `[...]` declaration. -/
structure PState where
  str : Str
  posArgs : List PosArg
  groups : List Group
  floats : List FloatAlias
  sequence : List SeqElem
  varPosArgsEnabled : Bool
  isOptional : Bool
  lastTok : Tok
  deriving DecidableEq, Repr

/-- `EXT_ARGS_Match`: try the next token; on mismatch either raise a parse
error (mandatory) or roll the cursor back (the returned state is unchanged). -/
def matchTok (tt : TokType) (isMandatory : Bool) (st : PState) :
    Except SchemaErr (Bool × PState) :=
  match nextTok st.str with
  | .error rest => .error (.lex rest)
  | .ok (t, rest) =>
    if t.type = tt then .ok (true, { st with str := rest, lastTok := t })
    else if isMandatory then .error (.parse tt t.type st.str)
    else .ok (false, st)

/-- `EXT_ARGS_AssignVal`: `EQL NAME`, restoring the cursor when the NAME
after a matched `=` is missing (non-mandatory case). -/
def assignVal (isMandatory : Bool) (st : PState) : Except SchemaErr (Bool × PState) :=
  let bk := st.str
  match matchTok .eql isMandatory st with
  | .error e => .error e
  | .ok (false, st2) => .ok (false, st2)
  | .ok (true, st2) =>
    match matchTok .name isMandatory st2 with
    | .error e => .error e
    | .ok (false, st3) => .ok (false, { st3 with str := bk })
    | .ok (true, st3) => .ok (true, st3)

/-- `EXT_ARGS_SavePosArg`. -/
def savePosArg (st : PState) : PState :=
  { st with
    sequence := st.sequence ++ [.pos st.posArgs.length]
    posArgs := st.posArgs ++ [⟨st.isOptional, st.lastTok.text⟩] }

/-- `EXT_ARGS_SaveFloatArg`. -/
def saveFloatArg (groupIdx : Nat) (st : PState) : PState :=
  { st with floats := st.floats ++ [⟨st.lastTok.text, groupIdx⟩] }

/-- `EXT_ARGS_SaveGroup`. -/
def saveGroup (hasAssign isRepeating : Bool) (aliasCount : Nat) (st : PState) : PState :=
  { st with
    sequence := st.sequence ++ [.grp st.groups.length]
    groups := st.groups ++ [⟨st.isOptional, hasAssign, false, isRepeating, aliasCount, false, []⟩] }

/-- The in-place update `prs->groups[groupIdx].hasAssign = true;
prs->groups[groupIdx].isAssignOptional = true` for the `[= NAME]` form. -/
def setGroupAssign (groupIdx : Nat) (st : PState) : PState :=
  let gr := st.groups.getD groupIdx default
  { st with groups := st.groups.set groupIdx { gr with hasAssign := true, isAssignOptional := true } }

/-- The `while(Match(PIPE)) { Match(FLOAT_ARG); SaveFloatArg; }` loop of
`EXT_ARGS_Arg`.  On a failed alias after a pipe (non-mandatory case) the C
code rolls the cursor back to just after the first alias and truncates the
collected aliases; the `Bool` result distinguishes that failure. -/
def aliasLoop (fuel : Nat) (isMandatory : Bool) (groupIdx : Nat) (bk : Str)
    (floatBk : Nat) (aliasCount : Nat) (st : PState) :
    Except SchemaErr (Bool × Nat × PState) :=
  match fuel with
  | 0 => .error .fuel
  | fuel + 1 =>
    match matchTok .pipe false st with
    | .error e => .error e
    | .ok (false, st2) => .ok (true, aliasCount, st2)
    | .ok (true, st2) =>
      match matchTok .floatArg isMandatory st2 with
      | .error e => .error e
      | .ok (false, st3) =>
        .ok (false, aliasCount, { st3 with str := bk, floats := st3.floats.take floatBk })
      | .ok (true, st3) =>
        aliasLoop fuel isMandatory groupIdx bk floatBk (aliasCount + 1) (saveFloatArg groupIdx st3)

/-- `EXT_ARGS_Arg`:
`arg : NAME | FLOAT_ARG (PIPE FLOAT_ARG)* (assignval DOTS? | LBR assignval RBR)?`. -/
def arg (fuel : Nat) (isMandatory : Bool) (st : PState) : Except SchemaErr (Bool × PState) :=
  match matchTok .name false st with
  | .error e => .error e
  | .ok (true, st1) => .ok (true, savePosArg st1)
  | .ok (false, st1) =>
    match matchTok .floatArg isMandatory st1 with
    | .error e => .error e
    | .ok (false, st2) => .ok (false, st2)
    | .ok (true, st2) =>
      -- `groupIdx` is `st2.groups.length`, `floatBk` is `st2.floats.length`, and
      -- the loop's rollback cursor is the cursor right after the first alias,
      -- which `saveFloatArg` leaves untouched (`st2.str`).
      match aliasLoop fuel isMandatory st2.groups.length st2.str st2.floats.length 1
          (saveFloatArg st2.groups.length st2) with
      | .error e => .error e
      | .ok (false, _, st4) => .ok (false, st4)
      | .ok (true, aliasCount, st4) =>
        match assignVal false st4 with
        | .error e => .error e
        | .ok (true, st5) =>
          match matchTok .dots false st5 with
          | .error e => .error e
          | .ok (isRepeating, st6) => .ok (true, saveGroup true isRepeating aliasCount st6)
        | .ok (false, st5) =>
          -- the new backup cursor after `SaveGroup` equals `st5.str`, since
          -- `SaveGroup` does not consume schema text
          match matchTok .lbrak false (saveGroup false false aliasCount st5) with
          | .error e => .error e
          | .ok (false, st7) => .ok (true, { st7 with str := st5.str })
          | .ok (true, st7) =>
            match assignVal false st7 with
            | .error e => .error e
            | .ok (false, st8) => .ok (true, { st8 with str := st5.str })
            | .ok (true, st8) =>
              match matchTok .rbrak false st8 with
              | .error e => .error e
              | .ok (false, st9) => .ok (true, { st9 with str := st5.str })
              | .ok (true, st9) => .ok (true, setGroupAssign st2.groups.length st9)

/-- `EXT_ARGS_Decl`: `decl : arg | LBR arg RBR`, setting
`parsingStates.isOptional` accordingly. -/
def decl (fuel : Nat) (isMandatory : Bool) (st : PState) : Except SchemaErr (Bool × PState) :=
  match arg fuel false { st with isOptional := false } with
  | .error e => .error e
  | .ok (true, st1) => .ok (true, st1)
  | .ok (false, st1) =>
    -- `bk` is the cursor after the failed plain `arg` attempt, `st1.str`
    match matchTok .lbrak isMandatory st1 with
    | .error e => .error e
    | .ok (false, st2) => .ok (false, st2)
    | .ok (true, st2) =>
      match arg fuel isMandatory { st2 with isOptional := true } with
      | .error e => .error e
      | .ok (false, st4) => .ok (false, { st4 with str := st1.str })
      | .ok (true, st4) =>
        match matchTok .rbrak isMandatory st4 with
        | .error e => .error e
        | .ok (false, st5) => .ok (false, { st5 with str := st1.str })
        | .ok (true, st5) => .ok (true, st5)

/-- The `while(EXT_ARGS_Decl(prs, false));` loop of `EXT_ARGS_Synopsis`. -/
def declLoop (fuel : Nat) (st : PState) : Except SchemaErr PState :=
  match fuel with
  | 0 => .error .fuel
  | fuel + 1 =>
    match decl fuel false st with
    | .error e => .error e
    | .ok (false, st2) => .ok st2
    | .ok (true, st2) => declLoop fuel st2

/-- `EXT_ARGS_Synopsis`: `decl* DOTS? EOI`. -/
def synopsis (fuel : Nat) (st : PState) : Except SchemaErr PState :=
  match declLoop fuel st with
  | .error e => .error e
  | .ok st1 =>
    match matchTok .dots false st1 with
    | .error e => .error e
    | .ok (b, st2) =>
      match matchTok .eoi true
          (if b then { st2 with varPosArgsEnabled := true } else st2) with
      | .error e => .error e
      | .ok (_, st4) => .ok st4

/-- The zero-initialised `EXT_ARGS_Parser prs = {.str = fmt}`. -/
def initState (fmt : Str) : PState :=
  ⟨fmt, [], [], [], [], false, false, ⟨.eoi, []⟩⟩

/-- Schema compilation as performed at the top of `ext_args`. -/
def parseSchema (fmt : Str) : Except SchemaErr PState :=
  synopsis (fmt.length + 1) (initState fmt)

/-- The "additional schema validations" scan: some adjacent pair is
optional-then-mandatory (`prs.posArgs[i].isOptional && !prs.posArgs[i+1].isOptional`). -/
def badPosChain : List PosArg → Bool
  | p1 :: p2 :: rest => (p1.isOptional && !p2.isOptional) || badPosChain (p2 :: rest)
  | _ => false

/-! ## Input tokenizer (the per-argument lexing loop of `ext_args`) -/

/-- User-input token kinds (`EXT_ARGS_UTOK_*`). -/
inductive UTokType
  | ufloat | ueql | uval | ueoi
  deriving DecidableEq, Repr

/-- `EXT_ARGS_UTok`: `str` is the suffix of the raw argument from the
token's position (C keeps a pointer into the argument, and `%s` prints to
the end of that argument); `len` is meaningful for flag tokens only. -/
structure UTok where
  type : UTokType
  str : Str
  len : Nat
  deriving DecidableEq, Repr

/-- Result of lexing one raw argument: some tokens, or the `--` input
terminator that stops tokenizing. -/
inductive ArgToks
  | toks (ts : List UTok)
  | term
  deriving DecidableEq, Repr

/-- One iteration of the input-lexing loop over `argv`:
flag-shaped prefix (with optional `=value`, or trailing garbage as an
"Ambiguous argument" input error), a bare `=value`, the two-dash
terminator test `EXT_ARGS_Char('-') && EXT_ARGS_Char('-')` (which only
examines the first two characters), or a plain value token. -/
def lexArg (a : Str) : Except String ArgToks :=
  match argFloat a with
  | some d =>
    let rest := a.drop d
    if rest.head? = some '=' then
      let v := rest.drop 1
      .ok (.toks ([⟨.ufloat, a, d⟩, ⟨.ueql, rest, 0⟩] ++
        (if v = [] then [] else [⟨.uval, v, 0⟩])))
    else if rest = [] then .ok (.toks [⟨.ufloat, a, d⟩])
    else .error ("Ambiguous argument \"" ++ String.mk a ++ "\"")
  | none =>
    if a.head? = some '=' then
      let v := a.drop 1
      .ok (.toks ([⟨.ueql, a, 0⟩] ++ (if v = [] then [] else [⟨.uval, v, 0⟩])))
    else if a.take 2 = ['-', '-'] then .ok .term
    else .ok (.toks [⟨.uval, a, 0⟩])

/-- The lexing loop over the argument vector (already excluding `argv[0]`,
which the C loop skips): concatenate per-argument tokens, stopping at the
terminator (which emits the EOI token and breaks). -/
def tokenizeArgs : List Str → Except String (List UTok)
  | [] => .ok []
  | a :: rest =>
    match lexArg a with
    | .error e => .error e
    | .ok .term => .ok [⟨.ueoi, [], 0⟩]
    | .ok (.toks ts) =>
      match tokenizeArgs rest with
      | .error e => .error e
      | .ok ts2 => .ok (ts ++ ts2)

/-- Tokenize the whole vector and append the implicit EOI token when the
last token is not already EOI (mirrors the `tokensCount == 0 || last != EOI`
check). -/
def lexInput (args : List Str) : Except String (List UTok) :=
  match tokenizeArgs args with
  | .error e => .error e
  | .ok ts =>
    match ts.getLast? with
    | some t => .ok (if t.type = .ueoi then ts else ts ++ [⟨.ueoi, [], 0⟩])
    | none => .ok (ts ++ [⟨.ueoi, [], 0⟩])

/-! ## Input parser (the token-walking loop of `ext_args`) -/

/-- `EXT_ARGS_UFloatArg`: one flag occurrence with its optional assigned value. -/
structure UFloatArg where
  str : Str
  len : Nat
  assignVal : Option Str
  deriving DecidableEq, Repr

/-- The input-parsing loop: flags (optionally followed by `= value`),
plain values, and errors for a dangling `=` after a flag ("A value
expected", quoting the whole flag argument) or a top-level `=`
("Unexpected input").  The token list produced by `lexInput` always ends
with the EOI token, so the `[]` branches mirror reading that sentinel. -/
def parseInput : List UTok → List UFloatArg → List Str →
    Except String (List UFloatArg × List Str)
  | [], fls, ps => .ok (fls, ps)
  | ⟨.ueoi, _, _⟩ :: _, fls, ps => .ok (fls, ps)
  | ⟨.uval, s, _⟩ :: rest, fls, ps => parseInput rest fls (ps ++ [s])
  | ⟨.ueql, s, _⟩ :: _, _, _ => .error ("Unexpected input \"" ++ String.mk s ++ "\"")
  | ⟨.ufloat, s, n⟩ :: ⟨.ueql, _, _⟩ :: ⟨.uval, v, _⟩ :: rest, fls, ps =>
    parseInput rest (fls ++ [⟨s, n, some v⟩]) ps
  | ⟨.ufloat, s, _⟩ :: ⟨.ueql, _, _⟩ :: _, _, _ =>
    .error ("A value expected \"" ++ String.mk s ++ "\"")
  | ⟨.ufloat, s, n⟩ :: rest, fls, ps => parseInput rest (fls ++ [⟨s, n, none⟩]) ps

/-! ## Matcher: validation passes -/

/-- The inner alias scan (`uf.len == f.len && strncmp(uf.str, f.str, f.len) == 0`):
since each stored alias holds exactly its `len` characters and `text` is the
occurrence's first `uf.len` characters, the comparison is list equality. -/
def findAlias (floats : List FloatAlias) (text : Str) : Option FloatAlias :=
  floats.find? (fun f => f.str == text)

/-- Per-occurrence validation: unknown flag, duplicate non-repeatable flag,
missing required value, or value given to a value-less flag; marks groups used. -/
def validate1 (floats : List FloatAlias) :
    List UFloatArg → List Group → Except String (List Group)
  | [], grs => .ok grs
  | uf :: rest, grs =>
    let text := uf.str.take uf.len
    match findAlias floats text with
    | none => .error ("Ambiguous argument \"" ++ String.mk text ++ "\" provided")
    | some f =>
      let gr := grs.getD f.groupIdx default
      if gr.isUsed && !gr.isRepeating then
        .error ("Same arguments provided multiple times: " ++ String.mk text)
      else if gr.hasAssign && !uf.assignVal.isSome && !gr.isAssignOptional then
        .error ("\"" ++ String.mk text ++ "\" argument requires a value")
      else if !gr.hasAssign && uf.assignVal.isSome then
        .error ("\"" ++ String.mk text ++ "\" argument does not require a value")
      else validate1 floats rest (grs.set f.groupIdx { gr with isUsed := true })

/-- The "specified but not provided" check over groups in order, reporting
the first alias of the offending group. -/
def checkMissingAux (floats : List FloatAlias) : List (Nat × Group) → Option String
  | [] => none
  | (i, gr) :: rest =>
    if !gr.isUsed && !gr.isOptional then
      match floats.find? (fun f => f.groupIdx == i) with
      | some f =>
        some ("\"" ++ String.mk f.str ++ "\" argument " ++
          (if gr.aliasCount > 1 then "(or alias) " else "") ++ "required but not provided")
      | none => checkMissingAux floats rest
    else checkMissingAux floats rest

def checkMissing (floats : List FloatAlias) (grs : List Group) : Option String :=
  checkMissingAux floats grs.enum

/-! ## Binder: the write events performed through the caller's pointers -/

/-- A write destination: the output slot of a declared positional, of a
group, or the trailing variadic-capture slot. -/
inductive Dest
  | pos (i : Nat)
  | grp (i : Nat)
  | trailing
  deriving DecidableEq, Repr

/-- A `char *` value as stored into a string slot: `NULL`, the
`ext_args_no_value` sentinel (a distinguished pointer, distinct from
`NULL` and from every user string), or a user-supplied string. -/
inductive StrPtr
  | null
  | noValue
  | strv (s : Str)
  deriving DecidableEq, Repr

/-- The value written into a slot: a `char *`, a `bool`, or a
NULL-terminated `char **` array (listed as its elements before the
terminator). -/
inductive SlotVal
  | str (p : StrPtr)
  | boolv (b : Bool)
  | ary (xs : List Str)
  deriving DecidableEq, Repr

abbrev Write := Dest × SlotVal

/-- The "Vars filling, assings" loop over flag occurrences.  For a
repeating group every store publishes the grown array (the validation pass
guarantees the assigned value exists for repeating groups, so the
`getD []` default is unreachable). -/
def fillFloats (floats : List FloatAlias) :
    List UFloatArg → List Group → List Group × List Write
  | [], grs => (grs, [])
  | uf :: rest, grs =>
    let text := uf.str.take uf.len
    match findAlias floats text with
    | none => fillFloats floats rest grs
    | some f =>
      let gr := grs.getD f.groupIdx default
      if gr.isRepeating then
        let newAry := gr.ary ++ [uf.assignVal.getD []]
        let res := fillFloats floats rest (grs.set f.groupIdx { gr with ary := newAry })
        (res.1, (Dest.grp f.groupIdx, SlotVal.ary newAry) :: res.2)
      else
        let w : Write :=
          if gr.hasAssign then
            match uf.assignVal with
            | some v => (Dest.grp f.groupIdx, SlotVal.str (.strv v))
            | none => (Dest.grp f.groupIdx, SlotVal.str .noValue)
          else (Dest.grp f.groupIdx, SlotVal.boolv true)
        let res := fillFloats floats rest grs
        (res.1, w :: res.2)

/-- The "filling floats that specified but not provided" loop: unused
optional groups get an empty array, `NULL`, or `false`. -/
def fillUnused : List (Nat × Group) → List Write
  | [] => []
  | (i, gr) :: rest =>
    (if !gr.isUsed && gr.isOptional then
      (if gr.isRepeating then [(Dest.grp i, SlotVal.ary [])]
       else if gr.hasAssign then [(Dest.grp i, SlotVal.str .null)]
       else [(Dest.grp i, SlotVal.boolv false)])
     else []) ++ fillUnused rest

/-- The `for(i = inp->posArgsCount; i < prs.posArgsCount; i++)` NULLing
loop over undersupplied optional positionals (it appears twice in the
source). -/
def nullOptPos (inpCount posCount : Nat) : List Write :=
  (List.range' inpCount (posCount - inpCount)).map
    (fun i => (Dest.pos i, SlotVal.str .null))

/-- The "filling posArgs vars" loop: declared positions receive their
value; leftovers grow the variadic-capture array, each push publishing the
grown array (when variadic capture is disabled the loop breaks instead,
which is unreachable past the positional-count check). -/
def fillPos (varEnabled : Bool) (posCount : Nat) :
    List Str → Nat → List Str → List Write
  | [], _, _ => []
  | v :: rest, i, opts =>
    if i < posCount then
      (Dest.pos i, SlotVal.str (.strv v)) :: fillPos varEnabled posCount rest (i + 1) opts
    else if !varEnabled then []
    else
      let opts2 := opts ++ [v]
      (Dest.trailing, SlotVal.ary opts2) :: fillPos varEnabled posCount rest (i + 1) opts2

/-- The full binding phase, in source order: flag occurrences, unused
optional groups, the first NULLing loop, positional filling with variadic
capture, the second NULLing loop, and the empty-but-non-NULL trailing
array when no leftover positional was pushed. -/
def bindAll (st : PState) (grs : List Group) (ufs : List UFloatArg)
    (inpPos : List Str) : List Write :=
  let fl := fillFloats st.floats ufs grs
  let w2 := fillUnused fl.1.enum
  let w3 := nullOptPos inpPos.length st.posArgs.length
  let w4 := fillPos st.varPosArgsEnabled st.posArgs.length inpPos 0 []
  let w6 :=
    if st.varPosArgsEnabled && decide (inpPos.length ≤ st.posArgs.length) then
      [(Dest.trailing, SlotVal.ary [])] else []
  fl.2 ++ w2 ++ w3 ++ w4 ++ w3 ++ w6

/-- The last value written to a destination (what the caller's variable
holds after the call), or `none` when the slot was never written. -/
def finalVal (ws : List Write) (d : Dest) : Option SlotVal :=
  (ws.filter (fun w => decide (w.1 = d))).getLast?.map (fun w => w.2)

/-! ## The top-level `ext_args` call -/

/-- Result codes (`EXT_ARGS_NO_ERR` / `EXT_ARGS_SCHEMA_ERR` /
`EXT_ARGS_INPUT_ERR`; allocation never fails in this model). -/
inductive Code
  | noErr | schemaErr | inputErr
  deriving DecidableEq, Repr

/-- The observable outcome of one `ext_args` call: the result code, the
formatted error message (if any), and the writes performed through the
caller's output pointers. -/
structure Outcome where
  code : Code
  err : Option String
  writes : List Write
  deriving DecidableEq, Repr

/-- The formatted schema-error messages of the two `setjmp` handlers. -/
def schemaErrMsg : SchemaErr → String
  | .lex rest => "Schema lexing error, starting from \"" ++ String.mk rest ++ "\""
  | .parse expected found rest =>
    "Schema parsing error. Expected " ++ tokTypeName expected ++ " but received " ++
      tokTypeName found ++ ", starting from \"" ++ String.mk rest ++ "\""
  | .fuel => "Schema parsing fuel exhausted"

/-- The fixed message of the positional-chain schema validation. -/
def chainErrMsg : String :=
  "All optional non-flag arguments must be chained on the schema's right side"

/-- `ext_args(argc, argv, fmt, ap, &err)`: schema compilation, the
positional-chain validation, input lexing, input parsing, the three
validation passes, and only then the binding writes.  `args` models
`argv[1..]` (the C loop skips the program name). -/
def ext_args (fmt : Str) (args : List Str) : Outcome :=
  match parseSchema fmt with
  | .error e => ⟨.schemaErr, some (schemaErrMsg e), []⟩
  | .ok st =>
    if badPosChain st.posArgs then ⟨.schemaErr, some chainErrMsg, []⟩
    else
      match lexInput args with
      | .error m => ⟨.inputErr, some m, []⟩
      | .ok toks =>
        match parseInput toks [] [] with
        | .error m => ⟨.inputErr, some m, []⟩
        | .ok (ufs, inpPos) =>
          match validate1 st.floats ufs st.groups with
          | .error m => ⟨.inputErr, some m, []⟩
          | .ok grs =>
            match checkMissing st.floats grs with
            | some m => ⟨.inputErr, some m, []⟩
            | none =>
              if inpPos.length < (st.posArgs.filter (fun p => !p.isOptional)).length then
                ⟨.inputErr, some "Not enough positional arguments provided", []⟩
              else if !st.varPosArgsEnabled && decide (st.posArgs.length < inpPos.length) then
                ⟨.inputErr, some "Too many positional arguments provided", []⟩
              else ⟨.noErr, none, bindAll st grs ufs inpPos⟩

/-- Convenience entry point over Lean strings. -/
def run (fmt : String) (args : List String) : Outcome :=
  ext_args fmt.toList (args.map String.toList)

/-- The structural invariant of the schema model: a repeatable group is
always value-taking. -/
def RepAssignInv (grs : List Group) : Prop :=
  ∀ g ∈ grs, g.isRepeating = true → g.hasAssign = true

end ExtArgs

namespace ExtArgs

/-! ## Theorems -/

/-- C1: for the schema `"a [b] ..."` (one mandatory positional, one optional
positional, variadic trailing enabled), matching `["1","2","3"]` succeeds and
binds the first slot to `"1"`, the second to `"2"`, and the trailing-capture
slot to the sequence `["3"]`; matching `["1"]` succeeds and binds the first
slot to `"1"`, the second to the absent marker (`NULL`), and the
trailing-capture slot to an empty but non-absent (non-`NULL`,
NULL-terminated) array. -/
theorem c1_variadic_trailing_binding :
    (run "a [b] ..." ["1", "2", "3"]).code = Code.noErr ∧
    finalVal (run "a [b] ..." ["1", "2", "3"]).writes (.pos 0) =
      some (.str (.strv ['1'])) ∧
    finalVal (run "a [b] ..." ["1", "2", "3"]).writes (.pos 1) =
      some (.str (.strv ['2'])) ∧
    finalVal (run "a [b] ..." ["1", "2", "3"]).writes .trailing =
      some (.ary [['3']]) ∧
    (run "a [b] ..." ["1"]).code = Code.noErr ∧
    finalVal (run "a [b] ..." ["1"]).writes (.pos 0) = some (.str (.strv ['1'])) ∧
    finalVal (run "a [b] ..." ["1"]).writes (.pos 1) = some (.str .null) ∧
    finalVal (run "a [b] ..." ["1"]).writes .trailing = some (.ary []) := by
  decide

/-- C2: for the repeatable group `"-D=val..."`, matching `["-D=1","-D=2"]`
succeeds and binds its slot to the ordered (input-occurrence-order,
NULL-terminated) sequence `["1","2"]`; declared optional as `"[-D=val...]"`
and given zero occurrences, matching succeeds and binds the slot to an
empty, non-absent sequence. -/
theorem c2_repeatable_group_binding :
    (run "-D=val..." ["-D=1", "-D=2"]).code = Code.noErr ∧
    finalVal (run "-D=val..." ["-D=1", "-D=2"]).writes (.grp 0) =
      some (.ary [['1'], ['2']]) ∧
    (run "[-D=val...]" []).code = Code.noErr ∧
    finalVal (run "[-D=val...]" []).writes (.grp 0) = some (.ary []) := by
  decide

/-- C3: for a group declared `"-a[=val]"`, a bare occurrence `-a` succeeds
and binds the slot to the no-value sentinel, which is distinct both from
`NULL`/absent and from every possible user-supplied string; an occurrence
`-a=x` binds the slot to `"x"`; and with the group declared optional and
absent from input, the slot is bound to `NULL`. -/
theorem c3_no_value_sentinel :
    (run "-a[=val]" ["-a"]).code = Code.noErr ∧
    finalVal (run "-a[=val]" ["-a"]).writes (.grp 0) = some (.str .noValue) ∧
    StrPtr.noValue ≠ StrPtr.null ∧
    (∀ s : Str, StrPtr.noValue ≠ StrPtr.strv s) ∧
    (run "-a[=val]" ["-a=x"]).code = Code.noErr ∧
    finalVal (run "-a[=val]" ["-a=x"]).writes (.grp 0) =
      some (.str (.strv ['x'])) ∧
    (run "[-a[=val]]" []).code = Code.noErr ∧
    finalVal (run "[-a[=val]]" []).writes (.grp 0) = some (.str .null) := by
  refine ⟨by decide, by decide, by decide, fun s h => StrPtr.noConfusion h,
    by decide, by decide, by decide, by decide⟩

/-- C7: `ext_args` is a pure function of the schema string and the argument
vector: two invocations on equal inputs produce identical outcomes (same
result code, same diagnostic, same bound values), and the model's inputs
are immutable values, reflecting that the C code never writes to `fmt`,
`argc` or `argv`. -/
theorem c7_deterministic (fmt1 fmt2 : Str) (args1 args2 : List Str)
    (h1 : fmt1 = fmt2) (h2 : args1 = args2) :
    ext_args fmt1 args1 = ext_args fmt2 args2 := by
  subst h1; subst h2; rfl

theorem c7_witness :
    ext_args "a".toList [['x']] = ext_args "a".toList [['x']] :=
  c7_deterministic "a".toList "a".toList [['x']] [['x']] rfl rfl

/-- C9: whenever `ext_args` returns a schema error or an input error, no
caller-provided output slot has been written: the write events are produced
only after schema lexing/parsing/validation and all input validation passes
have succeeded, so on any non-allocation error the list of writes performed
through the caller's pointers is empty. -/
theorem noErr_or_no_writes (fmt : Str) (args : List Str) :
    (ext_args fmt args).code = Code.noErr ∨ (ext_args fmt args).writes = [] := by
  unfold ext_args
  repeat' split
  all_goals simp

theorem c9_no_writes_on_error (fmt : Str) (args : List Str)
    (h : (ext_args fmt args).code ≠ Code.noErr) :
    (ext_args fmt args).writes = [] :=
  (noErr_or_no_writes fmt args).resolve_left h

theorem c9_witness :
    (ext_args "[a] b".toList [['x']]).code ≠ Code.noErr ∧
    (ext_args "[a] b".toList [['x']]).writes = [] :=
  ⟨by decide, c9_no_writes_on_error "[a] b".toList [['x']] (by decide)⟩


theorem badPosChain_cons (p : PosArg) (l : List PosArg)
    (h : badPosChain l = true) : badPosChain (p :: l) = true := by
  cases l with
  | nil => simp [badPosChain] at h
  | cons q l2 => simp [badPosChain, h]

theorem badPosChain_mid (a b : PosArg) (l2 l3 : List PosArg)
    (ha : a.isOptional = true) (hb : b.isOptional = false) :
    badPosChain (a :: (l2 ++ b :: l3)) = true := by
  induction l2 generalizing a with
  | nil => simp [badPosChain, ha, hb]
  | cons c l4 ih =>
    by_cases hc : c.isOptional = true
    · have h2 := ih c hc
      simp [badPosChain, h2]
    · simp only [Bool.not_eq_true] at hc
      simp [List.cons_append, badPosChain, ha, hc]

theorem badPosChain_prefix (l1 l : List PosArg) (h : badPosChain l = true) :
    badPosChain (l1 ++ l) = true := by
  induction l1 with
  | nil => exact h
  | cons c l2 ih => exact badPosChain_cons c (l2 ++ l) ih

/-- C6: for every schema in which some positional argument declared optional
is followed, in declaration order, by a positional argument declared
mandatory, `ext_args` returns a schema error with the fixed message
`chainErrMsg`, for every argument vector: the rejection happens at
schema-validation time, after schema lexing and parsing succeed, and
before any input is examined. -/
theorem c6_optional_before_mandatory (fmt : Str) (args : List Str) (st : PState)
    (h : parseSchema fmt = .ok st)
    (l1 l2 l3 : List PosArg) (a b : PosArg)
    (hsplit : st.posArgs = l1 ++ a :: (l2 ++ b :: l3))
    (ha : a.isOptional = true) (hb : b.isOptional = false) :
    ext_args fmt args = ⟨.schemaErr, some chainErrMsg, []⟩ := by
  have hbad : badPosChain st.posArgs = true := by
    rw [hsplit]
    exact badPosChain_prefix l1 _ (badPosChain_mid a b l2 l3 ha hb)
  unfold ext_args
  simp [h, hbad]

theorem c6_witness :
    ext_args "[a] b".toList [['x']] = ⟨.schemaErr, some chainErrMsg, []⟩ :=
  c6_optional_before_mandatory "[a] b".toList [['x']]
    ⟨[], [⟨true, ['a']⟩, ⟨false, ['b']⟩], [], [], [.pos 0, .pos 1], false, false, ⟨.eoi, []⟩⟩
    rfl [] [] [] ⟨true, ['a']⟩ ⟨false, ['b']⟩ rfl rfl rfl

theorem matchTok_ok_groups {tt : TokType} {m : Bool} {st : PState} {b : Bool}
    {st2 : PState} (h : matchTok tt m st = .ok (b, st2)) : st2.groups = st.groups := by
  unfold matchTok at h
  repeat' split at h
  all_goals simp_all
  all_goals rw [← h.2]

theorem assignVal_ok_groups {m : Bool} {st : PState} {b : Bool} {st2 : PState}
    (h : assignVal m st = .ok (b, st2)) : st2.groups = st.groups := by
  unfold assignVal at h
  split at h
  · exact Except.noConfusion h
  · rename_i st3 heq
    injection h with h2
    injection h2 with hb hst
    subst hst
    exact matchTok_ok_groups heq
  · rename_i st3 heq
    split at h
    · exact Except.noConfusion h
    · rename_i st4 heq2
      injection h with h2
      injection h2 with hb hst
      subst hst
      exact (matchTok_ok_groups heq2).trans (matchTok_ok_groups heq)
    · rename_i st4 heq2
      injection h with h2
      injection h2 with hb hst
      subst hst
      exact (matchTok_ok_groups heq2).trans (matchTok_ok_groups heq)

theorem aliasLoop_ok_groups (fuel : Nat) :
    ∀ {m : Bool} {gi : Nat} {bk : Str} {fbk ac : Nat} {st : PState} {b : Bool}
    {ac2 : Nat} {st2 : PState},
    aliasLoop fuel m gi bk fbk ac st = .ok (b, ac2, st2) → st2.groups = st.groups := by
  induction fuel with
  | zero =>
    intro m gi bk fbk ac st b ac2 st2 h
    simp [aliasLoop] at h
  | succ fuel ih =>
    intro m gi bk fbk ac st b ac2 st2 h
    unfold aliasLoop at h
    split at h
    · exact Except.noConfusion h
    · rename_i st3 heq
      injection h with h2
      injection h2 with hb h3
      injection h3 with hac hst
      subst hst
      exact matchTok_ok_groups heq
    · rename_i st3 heq
      split at h
      · exact Except.noConfusion h
      · rename_i st4 heq2
        injection h with h2
        injection h2 with hb h3
        injection h3 with hac hst
        subst hst
        exact (matchTok_ok_groups heq2).trans (matchTok_ok_groups heq)
      · rename_i st4 heq2
        have g3 := ih h
        have g2 := matchTok_ok_groups heq2
        have g1 := matchTok_ok_groups heq
        exact g3.trans (g2.trans g1)

theorem repAssignInv_of_eq {g1 g2 : List Group} (h : g1 = g2)
    (hinv : RepAssignInv g2) : RepAssignInv g1 := by
  rw [RepAssignInv, h]; exact hinv

theorem repAssignInv_append {grs : List Group} {g0 : Group} (hinv : RepAssignInv grs)
    (hg : g0.isRepeating = true → g0.hasAssign = true) : RepAssignInv (grs ++ [g0]) := by
  intro g hmem hr
  rcases List.mem_append.mp hmem with hm | hm
  · exact hinv g hm hr
  · obtain rfl := List.mem_singleton.mp hm
    exact hg hr

theorem repAssignInv_set {grs : List Group} {i : Nat} {g0 : Group} (hinv : RepAssignInv grs)
    (hg : g0.isRepeating = true → g0.hasAssign = true) : RepAssignInv (grs.set i g0) := by
  intro g hmem hr
  rcases List.mem_or_eq_of_mem_set hmem with hm | rfl
  · exact hinv g hm hr
  · exact hg hr

theorem arg_ok_inv (fuel : Nat) {m : Bool} {st : PState} {b : Bool} {st2 : PState}
    (h : arg fuel m st = .ok (b, st2)) (hinv : RepAssignInv st.groups) :
    RepAssignInv st2.groups := by
  unfold arg at h
  split at h
  · exact Except.noConfusion h
  · rename_i st1 heq
    injection h with h2
    injection h2 with hb hst
    subst hst
    have g := matchTok_ok_groups heq
    have r := repAssignInv_of_eq g hinv
    exact r
  · rename_i st1 heq
    split at h
    · exact Except.noConfusion h
    · rename_i st1b heq2
      injection h with h2
      injection h2 with hb hst
      subst hst
      have g := (matchTok_ok_groups heq2).trans (matchTok_ok_groups heq)
      have r := repAssignInv_of_eq g hinv
      exact r
    · rename_i st1b heq2
      have gBase := (matchTok_ok_groups heq2).trans (matchTok_ok_groups heq)
      split at h
      · exact Except.noConfusion h
      · rename_i ac2 st4 heq3
        injection h with h2
        injection h2 with hb hst
        subst hst
        have gA := aliasLoop_ok_groups fuel heq3
        have gA2 : st4.groups = st1b.groups := gA
        have r := repAssignInv_of_eq (gA2.trans gBase) hinv
        exact r
      · rename_i ac2 st4 heq3
        have gA := aliasLoop_ok_groups fuel heq3
        have gA2 : st4.groups = st1b.groups := gA
        have g4 := gA2.trans gBase
        split at h
        · exact Except.noConfusion h
        · rename_i st5 heq4
          have g5 := (assignVal_ok_groups heq4).trans g4
          split at h
          · exact Except.noConfusion h
          · rename_i isRep st6 heq5
            injection h with h2
            injection h2 with hb hst
            subst hst
            have g6 := (matchTok_ok_groups heq5).trans g5
            have r : RepAssignInv (st6.groups ++
                [⟨st6.isOptional, true, false, isRep, ac2, false, []⟩]) :=
              repAssignInv_append (repAssignInv_of_eq g6 hinv) (fun _ => rfl)
            exact r
        · rename_i st5 heq4
          have g5 := (assignVal_ok_groups heq4).trans g4
          have hinv6 : RepAssignInv (st5.groups ++
              [⟨st5.isOptional, false, false, false, ac2, false, []⟩]) :=
            repAssignInv_append (repAssignInv_of_eq g5 hinv) (fun hr => Bool.noConfusion hr)
          have hinv6b : RepAssignInv (saveGroup false false ac2 st5).groups := hinv6
          split at h
          · exact Except.noConfusion h
          · rename_i st7 heq5
            injection h with h2
            injection h2 with hb hst
            subst hst
            have g7 := matchTok_ok_groups heq5
            have r := repAssignInv_of_eq g7 hinv6b
            exact r
          · rename_i st7 heq5
            have g7 := matchTok_ok_groups heq5
            split at h
            · exact Except.noConfusion h
            · rename_i st8 heq6
              injection h with h2
              injection h2 with hb hst
              subst hst
              have g8 := (assignVal_ok_groups heq6).trans g7
              have r := repAssignInv_of_eq g8 hinv6b
              exact r
            · rename_i st8 heq6
              have g8 := (assignVal_ok_groups heq6).trans g7
              split at h
              · exact Except.noConfusion h
              · rename_i st9 heq7
                injection h with h2
                injection h2 with hb hst
                subst hst
                have g9 := (matchTok_ok_groups heq7).trans g8
                have r := repAssignInv_of_eq g9 hinv6b
                exact r
              · rename_i st9 heq7
                injection h with h2
                injection h2 with hb hst
                subst hst
                have g9 := (matchTok_ok_groups heq7).trans g8
                have hinv9 := repAssignInv_of_eq g9 hinv6b
                exact repAssignInv_set hinv9 (fun _ => rfl)

theorem decl_ok_inv (fuel : Nat) {m : Bool} {st : PState} {b : Bool} {st2 : PState}
    (h : decl fuel m st = .ok (b, st2)) (hinv : RepAssignInv st.groups) :
    RepAssignInv st2.groups := by
  unfold decl at h
  have hinv0 : RepAssignInv ({ st with isOptional := false } : PState).groups := hinv
  split at h
  · exact Except.noConfusion h
  · rename_i st1 heq
    injection h with h2
    injection h2 with hb hst
    subst hst
    exact arg_ok_inv fuel heq hinv0
  · rename_i st1 heq
    have hinv1 := arg_ok_inv fuel heq hinv0
    split at h
    · exact Except.noConfusion h
    · rename_i st2b heq2
      injection h with h2
      injection h2 with hb hst
      subst hst
      have r := repAssignInv_of_eq (matchTok_ok_groups heq2) hinv1
      exact r
    · rename_i st2b heq2
      have hinv2 := repAssignInv_of_eq (matchTok_ok_groups heq2) hinv1
      have hinv2b : RepAssignInv ({ st2b with isOptional := true } : PState).groups := hinv2
      split at h
      · exact Except.noConfusion h
      · rename_i st4 heq3
        injection h with h2
        injection h2 with hb hst
        subst hst
        have r := arg_ok_inv fuel heq3 hinv2b
        exact r
      · rename_i st4 heq3
        have hinv4 := arg_ok_inv fuel heq3 hinv2b
        split at h
        · exact Except.noConfusion h
        · rename_i st5 heq4
          injection h with h2
          injection h2 with hb hst
          subst hst
          have r := repAssignInv_of_eq (matchTok_ok_groups heq4) hinv4
          exact r
        · rename_i st5 heq4
          injection h with h2
          injection h2 with hb hst
          subst hst
          have r := repAssignInv_of_eq (matchTok_ok_groups heq4) hinv4
          exact r

theorem declLoop_ok_inv (fuel : Nat) : ∀ {st st2 : PState},
    declLoop fuel st = .ok st2 → RepAssignInv st.groups → RepAssignInv st2.groups := by
  induction fuel with
  | zero =>
    intro st st2 h _
    simp [declLoop] at h
  | succ fuel ih =>
    intro st st2 h hinv
    unfold declLoop at h
    split at h
    · exact Except.noConfusion h
    · rename_i st3 heq
      injection h with hst
      subst hst
      exact decl_ok_inv fuel heq hinv
    · rename_i st3 heq
      exact ih h (decl_ok_inv fuel heq hinv)

theorem synopsis_ok_inv {fuel : Nat} {st st2 : PState}
    (h : synopsis fuel st = .ok st2) (hinv : RepAssignInv st.groups) :
    RepAssignInv st2.groups := by
  unfold synopsis at h
  split at h
  · exact Except.noConfusion h
  · rename_i st1 heq
    have hinv1 := declLoop_ok_inv fuel heq hinv
    split at h
    · exact Except.noConfusion h
    · rename_i bdots st3 heq2
      have hinv3 := repAssignInv_of_eq (matchTok_ok_groups heq2) hinv1
      cases bdots with
      | false =>
        simp only [Bool.false_eq_true, if_false] at h
        split at h
        · exact Except.noConfusion h
        · rename_i p st4 heq3
          injection h with hst
          subst hst
          have r := repAssignInv_of_eq (matchTok_ok_groups heq3) hinv3
          exact r
      | true =>
        simp only [if_true] at h
        split at h
        · exact Except.noConfusion h
        · rename_i p st4 heq3
          injection h with hst
          subst hst
          have g := matchTok_ok_groups heq3
          have g2 : st4.groups = st3.groups := g
          have r := repAssignInv_of_eq g2 hinv3
          exact r

/-- C8: for every schema string accepted by the schema parser, every
floating-argument group of the resulting schema model with
`isRepeating = true` also has `hasAssign = true`: a repeatable group is
always value-taking. -/
theorem c8_repeatable_is_value_taking (fmt : Str) (st : PState)
    (h : parseSchema fmt = .ok st) : RepAssignInv st.groups := by
  unfold parseSchema at h
  refine synopsis_ok_inv h ?_
  intro g hg hr
  exact absurd hg (List.not_mem_nil g)

theorem c8_witness :
    Group.hasAssign ⟨false, true, false, true, 1, false, []⟩ = true :=
  c8_repeatable_is_value_taking "-D=val... [-a]".toList
    ⟨[], [], [⟨false, true, false, true, 1, false, []⟩,
       ⟨true, false, false, false, 1, false, []⟩],
     [⟨['-', 'D'], 0⟩, ⟨['-', 'a'], 1⟩], [.grp 0, .grp 1], false, false, ⟨.eoi, []⟩⟩
    rfl ⟨false, true, false, true, 1, false, []⟩ (by decide) rfl

theorem lexArg_dash_a : lexArg ['-', 'a'] = .ok (.toks [⟨.ufloat, ['-', 'a'], 2⟩]) := rfl

theorem tokenizeArgs_replicate (k : Nat) :
    tokenizeArgs (List.replicate k ['-', 'a']) =
      .ok (List.replicate k ⟨.ufloat, ['-', 'a'], 2⟩) := by
  induction k with
  | zero => rfl
  | succ k ih =>
    simp only [List.replicate_succ, tokenizeArgs, lexArg_dash_a, ih]
    rfl

theorem getLast_replicate_float (n : Nat) :
    (List.replicate (n + 1) (⟨.ufloat, ['-', 'a'], 2⟩ : UTok)).getLast? =
      some ⟨.ufloat, ['-', 'a'], 2⟩ := by
  induction n with
  | zero => rfl
  | succ n ih =>
    rw [List.replicate_succ, List.replicate_succ, List.getLast?_cons_cons,
      ← List.replicate_succ]
    exact ih

theorem lexInput_replicate (n : Nat) :
    lexInput (List.replicate (n + 1) ['-', 'a']) =
      .ok (List.replicate (n + 1) ⟨.ufloat, ['-', 'a'], 2⟩ ++ [⟨.ueoi, [], 0⟩]) := by
  unfold lexInput
  rw [tokenizeArgs_replicate]
  simp only [getLast_replicate_float]
  rfl

theorem parseInput_float_bare (s : Str) (n : Nat) (t2 : UTok) (rest : List UTok)
    (h : t2.type ≠ .ueql) (fls : List UFloatArg) (ps : List Str) :
    parseInput (⟨.ufloat, s, n⟩ :: t2 :: rest) fls ps =
      parseInput (t2 :: rest) (fls ++ [⟨s, n, none⟩]) ps := by
  obtain ⟨k, s2, l2⟩ := t2
  cases k with
  | ueql => exact absurd rfl h
  | ufloat => rfl
  | uval => rfl
  | ueoi => rfl

theorem parseInput_replicate (k : Nat) (fls : List UFloatArg) (ps : List Str) :
    parseInput (List.replicate k ⟨.ufloat, ['-', 'a'], 2⟩ ++ [⟨.ueoi, [], 0⟩]) fls ps =
      .ok (fls ++ List.replicate k ⟨['-', 'a'], 2, none⟩, ps) := by
  induction k generalizing fls with
  | zero => simp [parseInput]
  | succ k ih =>
    rw [List.replicate_succ, List.cons_append]
    cases k with
    | zero =>
      simp [parseInput]
    | succ k2 =>
      rw [List.replicate_succ, List.cons_append,
        parseInput_float_bare _ _ _ _ (by decide) fls ps,
        ← List.cons_append, ← List.replicate_succ, ih]
      simp [List.replicate_succ, List.append_assoc]

theorem validate1_dup (rest : List UFloatArg) :
    validate1 [⟨['-', 'a'], 0⟩]
      (⟨['-', 'a'], 2, none⟩ :: ⟨['-', 'a'], 2, none⟩ :: rest)
      [⟨true, false, false, false, 1, false, []⟩] =
      .error "Same arguments provided multiple times: -a" := rfl

theorem ext_args_val1_error (fmt : Str) (args : List Str) (st : PState)
    (hps : parseSchema fmt = .ok st) (hchain : badPosChain st.posArgs = false)
    (toks : List UTok) (hlex : lexInput args = .ok toks)
    (ufs : List UFloatArg) (inpPos : List Str)
    (hparse : parseInput toks [] [] = .ok (ufs, inpPos))
    (m : String) (hval : validate1 st.floats ufs st.groups = .error m) :
    ext_args fmt args = ⟨.inputErr, some m, []⟩ := by
  unfold ext_args
  rw [hps]
  simp only [hchain, Bool.false_eq_true, if_false, hlex, hparse, hval]

/-- C4 counterexample: schema `"[-a]"` declares a non-repeatable group and
the vector `["-b","-a","-a"]` contains the flag `-a` more than once, yet
the reported input error is the per-occurrence "Ambiguous argument" failure
for `-b`, which precedes the duplicate check in validation order — not the
"Same arguments provided multiple times" message the claim requires. -/
theorem c4_counterexample :
    (ext_args "[-a]".toList [['-', 'b'], ['-', 'a'], ['-', 'a']]).code = Code.inputErr ∧
    (ext_args "[-a]".toList [['-', 'b'], ['-', 'a'], ['-', 'a']]).err =
      some "Ambiguous argument \"-b\" provided" ∧
    (ext_args "[-a]".toList [['-', 'b'], ['-', 'a'], ['-', 'a']]).err ≠
      some "Same arguments provided multiple times: -a" := by
  refine ⟨rfl, rfl, ?_⟩
  decide

/-- C4 (amended): for the schema `"[-a]"` (a non-repeatable group) and every
argument vector consisting of two or more occurrences of `-a`, the duplicate
occurrence is the first validation failure, and `ext_args` returns the input
error `Same arguments provided multiple times: -a` with no slot written. -/
theorem c4_duplicate_flag_error (n : Nat) :
    ext_args "[-a]".toList (List.replicate (n + 2) ['-', 'a']) =
      ⟨.inputErr, some "Same arguments provided multiple times: -a", []⟩ := by
  refine ext_args_val1_error "[-a]".toList (List.replicate (n + 2) ['-', 'a'])
    ⟨[], [], [⟨true, false, false, false, 1, false, []⟩], [⟨['-', 'a'], 0⟩],
      [.grp 0], false, false, ⟨.eoi, []⟩⟩
    rfl rfl _ (lexInput_replicate (n + 1)) _ _ (parseInput_replicate (n + 2) [] []) _ ?_
  exact validate1_dup (List.replicate n ⟨['-', 'a'], 2, none⟩)

/-- C5 counterexample: the raw argument `"---"` is not flag-shaped
(`argFloat` rejects it), does not begin with `=`, and is not exactly
`"--"`, yet the input tokenizer treats it as the end-of-input terminator
instead of producing a plain value token: the terminator test of the C
loop only examines the first two characters. -/
theorem c5_counterexample :
    argFloat ['-', '-', '-'] = none ∧
    (['-', '-', '-'] : Str).head? ≠ some '=' ∧
    (['-', '-', '-'] : Str) ≠ ['-', '-'] ∧
    lexArg ['-', '-', '-'] = .ok .term ∧
    lexArg ['-', '-', '-'] ≠ .ok (.toks [⟨.uval, ['-', '-', '-'], 0⟩]) := by
  refine ⟨rfl, by decide, by decide, rfl, fun hcontra => ?_⟩
  have h2 : (ArgToks.term : ArgToks) = .toks [⟨.uval, ['-', '-', '-'], 0⟩] :=
    Except.ok.inj hcontra
  exact ArgToks.noConfusion h2

/-- C5 (amended): a raw argument consisting of exactly two `-` characters
is the explicit end-of-input terminator and stops tokenizing of all
remaining raw arguments; more generally, every raw argument that is not
flag-shaped and does not begin with `=` acts as the terminator exactly
when its first two characters are `-` `-`, and becomes a plain value
token otherwise. -/
theorem c5_terminator_shape (a : Str) (h1 : argFloat a = none)
    (h2 : a.head? ≠ some '=') :
    (a.take 2 = ['-', '-'] → lexArg a = .ok .term ∧
      ∀ rest : List Str, tokenizeArgs (a :: rest) = .ok [⟨.ueoi, [], 0⟩]) ∧
    (a.take 2 ≠ ['-', '-'] → lexArg a = .ok (.toks [⟨.uval, a, 0⟩])) := by
  constructor
  · intro h3
    have hterm : lexArg a = .ok .term := by
      simp only [lexArg, h1]
      rw [if_neg h2, if_pos h3]
    refine ⟨hterm, fun rest => ?_⟩
    simp only [tokenizeArgs, hterm]
  · intro h3
    simp only [lexArg, h1]
    rw [if_neg h2, if_neg h3]

theorem c5_witness :
    lexArg ['x'] = .ok (.toks [⟨.uval, ['x'], 0⟩]) ∧
    lexArg ['-', '-'] = .ok .term ∧
    tokenizeArgs [['-', '-'], ['x']] = .ok [⟨.ueoi, [], 0⟩] ∧
    lexArg ['-', '-', '-'] = .ok .term := by
  refine ⟨?_, ?_, ?_, ?_⟩
  · exact (c5_terminator_shape ['x'] (by decide) (by decide)).2 (by decide)
  · exact ((c5_terminator_shape ['-', '-'] (by decide) (by decide)).1 (by decide)).1
  · exact ((c5_terminator_shape ['-', '-'] (by decide) (by decide)).1 (by decide)).2 [['x']]
  · exact ((c5_terminator_shape ['-', '-', '-'] (by decide) (by decide)).1 (by decide)).1

/-- C10: a raw argument `=text` (equals sign with no flag name) is
tokenized into an equals token plus a value token; during input parsing,
immediately after a bare flag occurrence those tokens become that
occurrence's assigned value (so `["-a","=x"]` under `"-a[=val]"` binds
`"x"`); in every other position a stray equals token at the top of the
parse loop yields the input error `Unexpected input` quoting the offending
text, as in `["-a=1","=b"]` under `"-a=val"`. -/
theorem c10_stray_equals :
    (∀ v : Str, v ≠ [] →
      lexArg ('=' :: v) = .ok (.toks [⟨.ueql, '=' :: v, 0⟩, ⟨.uval, v, 0⟩])) ∧
    (∀ (s : Str) (n : Nat) (e : Str) (le : Nat) (v : Str) (lv : Nat)
      (rest : List UTok) (fls : List UFloatArg) (ps : List Str),
      parseInput (⟨.ufloat, s, n⟩ :: ⟨.ueql, e, le⟩ :: ⟨.uval, v, lv⟩ :: rest) fls ps =
        parseInput rest (fls ++ [⟨s, n, some v⟩]) ps) ∧
    (∀ (s : Str) (l : Nat) (rest : List UTok) (fls : List UFloatArg) (ps : List Str),
      parseInput (⟨.ueql, s, l⟩ :: rest) fls ps =
        .error ("Unexpected input \"" ++ String.mk s ++ "\"")) ∧
    (run "-a[=val]" ["-a", "=x"]).code = Code.noErr ∧
    finalVal (run "-a[=val]" ["-a", "=x"]).writes (.grp 0) =
      some (.str (.strv ['x'])) ∧
    run "-a=val" ["-a=1", "=b"] =
      ⟨.inputErr, some "Unexpected input \"=b\"", []⟩ := by
  refine ⟨?_, fun s n e le v lv rest fls ps => rfl, fun s l rest fls ps => rfl,
    by decide, by decide, by decide⟩
  intro v hv
  have hfa : argFloat ('=' :: v) = none := rfl
  simp only [lexArg, hfa, List.drop_succ_cons, List.drop_zero]
  rw [if_pos (show ('=' :: v).head? = some '=' from rfl), if_neg hv]
  rfl

theorem c10_witness :
    lexArg ['=', 'x'] = .ok (.toks [⟨.ueql, ['=', 'x'], 0⟩, ⟨.uval, ['x'], 0⟩]) :=
  c10_stray_equals.1 ['x'] (by decide)

end ExtArgs
